import Mathlib

/-!
# spanner-csv-loader: typed-record decoding and batch upsert

A shallow embedding of `main.go` (`makeVals`, `load`, `run`) together with the
parts of Go's `strconv` package that `makeVals` calls.

Conventions of the embedding

* a Go `string` is a Lean `String`; the byte loops of `strconv` are run over the
  characters of the string (a character outside ASCII is encoded by bytes that
  are all `>= 0x80`, and every such byte takes the same branch as the character
  does here);
* a Go slice result is an `Option (List _)`, `none` being the `nil` slice;
* a Go `error` result is an `Option GoError`, `none` being `nil`;
* a function that may panic returns `Except Panic _`;
* `uint64` / `int64` arithmetic is arithmetic on `Nat` / `Int` with explicit
  wrap-around;
* `float64` values are carried opaquely and `strconv.ParseFloat` is a parameter.
-/

namespace SpannerCsvLoader

/-! ## Errors and values -/

/-- The two sentinel errors of `strconv`: `ErrSyntax` and `ErrRange`. -/
inductive NumErrKind where
  | ErrSyntax
  | ErrRange
  deriving DecidableEq, Repr

/-- The text of a `strconv` sentinel error. -/
def NumErrKind.Error : NumErrKind → String
  | .ErrSyntax => "invalid syntax"
  | .ErrRange => "value out of range"

/-- Go `error` values that occur in the program.

* `new msg` is `errors.New(msg)`;
* `wrap cause msg` is `errors.Wrap(cause, msg)`;
* `numError fn num err` is `&strconv.NumError{Func: fn, Num: num, Err: err}`;
* `EOF` is the sentinel `io.EOF`;
* `lib msg` is an error produced by a collaborator (csv reader, file system,
  object storage, database client). -/
inductive GoError where
  | new (msg : String)
  | wrap (cause : GoError) (msg : String)
  | numError (fn : String) (num : String) (err : NumErrKind)
  | EOF
  | lib (msg : String)
  deriving DecidableEq, Repr

/-- The method `Error()` of an error value. `quote` stands for `strconv.Quote`,
which `NumError.Error` applies to the offending text. -/
def GoError.Error (quote : String → String) : GoError → String
  | .new msg => msg
  | .wrap cause msg => msg ++ ": " ++ cause.Error quote
  | .numError fn num err => "strconv." ++ fn ++ ": parsing " ++ quote num ++ ": " ++ err.Error
  | .EOF => "EOF"
  | .lib msg => msg

deriving instance DecidableEq for Except

/-- A run-time panic of the Go program. -/
inductive Panic where
  | indexOutOfRange (index : Nat) (length : Nat)
  | nilDereference
  deriving DecidableEq, Repr

/-- A `float64`, carried by its IEEE-754 bit pattern; no arithmetic is modelled. -/
structure Float64 where
  bits : Nat
  deriving DecidableEq, Repr

/-- The dynamic values stored in the `[]interface{}` built by `makeVals`. -/
inductive Val where
  | int64 (v : Int)
  | float64 (f : Float64)
  | bool (b : Bool)
  | string (s : String)
  deriving DecidableEq, Repr

/-! ## `strconv`

The functions of Go's standard library that `makeVals` calls, after
`strconv/atoi.go` and `strconv/atob.go`, at the arguments the program passes
(`base = 10`, `bitSize = 64`). -/

/-- Conversion `int64(x)`: reduction into `[-2^63, 2^63)` modulo `2^64`. -/
def toInt64 (x : Int) : Int :=
  (x + 2 ^ 63) % 2 ^ 64 - 2 ^ 63

/-- The constant `maxUint64` of `strconv`. -/
def maxUint64 : Nat := 2 ^ 64 - 1

/-- The digit value `strconv.ParseUint` assigns to a byte: `c - '0'` for a
decimal digit, `lower(c) - 'a' + 10` for a letter (`lower(c) = c | 0x20`), and
none for any other byte. -/
def digitVal (c : Char) : Option Nat :=
  if 48 ≤ c.toNat ∧ c.toNat ≤ 57 then some (c.toNat - 48)
  else if 97 ≤ (c.toNat ||| 32) ∧ (c.toNat ||| 32) ≤ 122 then some ((c.toNat ||| 32) - 97 + 10)
  else none

/-- The loop of `strconv.ParseUint(s, 10, 64)` over the bytes of `s`, `n` being
the accumulator. Here `base = 10`, `cutoff = maxUint64/10 + 1` and
`maxVal = 1<<64 - 1`. -/
def parseUintLoop : List Char → Nat → Nat × Option NumErrKind
  | [], n => (n, none)
  | c :: cs, n =>
    match digitVal c with
    | none => (0, some .ErrSyntax)
    | some d =>
      if d ≥ 10 then (0, some .ErrSyntax)
      else if n ≥ maxUint64 / 10 + 1 then (maxUint64, some .ErrRange)
      else
        let n10 := (n * 10) % 2 ^ 64
        let n1 := (n10 + d) % 2 ^ 64
        if n1 < n10 ∨ n1 > maxUint64 then (maxUint64, some .ErrRange)
        else parseUintLoop cs n1

/-- The call `strconv.ParseUint(s, 10, 64)`. Only the kind of the error is kept:
`ParseInt` overwrites the other fields of the `NumError`. -/
def ParseUint (s : String) : Nat × Option NumErrKind :=
  if s = "" then (0, some .ErrSyntax)
  else parseUintLoop s.data 0

/-- The step "pick off leading sign" of `strconv.ParseInt`: the flag `neg` and
the text that is left, `s[1:]` after a `+` or a `-` and `s` otherwise. -/
def pickSign (s : String) : Bool × String :=
  match s.data with
  | '+' :: rest => (false, String.mk rest)
  | '-' :: rest => (true, String.mk rest)
  | _ => (false, s)

/-- The call `strconv.ParseInt(s, 10, 64)`. -/
def ParseInt (s : String) : Int × Option GoError :=
  if s = "" then (0, some (.numError "ParseInt" s .ErrSyntax))
  else
    let s0 := s
    let signed := pickSign s
    let neg := signed.1
    match ParseUint signed.2 with
    | (_, some .ErrSyntax) => (0, some (.numError "ParseInt" s0 .ErrSyntax))
    | (un, _) =>
      let cutoff : Nat := 2 ^ 63
      if neg = false ∧ un ≥ cutoff then
        (toInt64 (cutoff - 1 : Nat), some (.numError "ParseInt" s0 .ErrRange))
      else if neg = true ∧ un > cutoff then
        (toInt64 (- toInt64 cutoff), some (.numError "ParseInt" s0 .ErrRange))
      else
        let n := toInt64 un
        (if neg then toInt64 (-n) else n, none)

/-- The function `strconv.ParseBool`. -/
def ParseBool (str : String) : Bool × Option GoError :=
  if str = "1" ∨ str = "t" ∨ str = "T" ∨ str = "true" ∨ str = "TRUE" ∨ str = "True" then
    (true, none)
  else if str = "0" ∨ str = "f" ∨ str = "F" ∨ str = "false" ∨ str = "FALSE" ∨ str = "False" then
    (false, none)
  else (false, some (.numError "ParseBool" str .ErrSyntax))

/-! ## `makeVals` -/

/-- What a call of `makeVals` returns: the pair `([]interface{}, error)`. -/
abbrev ValsResult := Option (List Val) × Option GoError

/-- The `for i, v := range record` loop of `makeVals`; `i` is the index of the
head of the remaining record and `vals` the slice built so far.
`ParseFloat s` stands for `strconv.ParseFloat(s, 64)`. -/
def makeValsLoop (ParseFloat : String → Float64 × Option GoError) (types : List String) :
    Nat → List String → List Val → Except Panic ValsResult
  | _, [], vals => .ok (some vals, none)
  | i, v :: rest, vals =>
    match types[i]? with
    | none => .error (.indexOutOfRange i types.length)
    | some t =>
      if t = "int64" then
        match ParseInt v with
        | (_, some err) => .ok (none, some (.wrap err "error ParseInt"))
        | (val, none) => makeValsLoop ParseFloat types (i + 1) rest (vals ++ [.int64 val])
      else if t = "float64" then
        match ParseFloat v with
        | (_, some err) => .ok (none, some (.wrap err "error ParseFloat"))
        | (val, none) => makeValsLoop ParseFloat types (i + 1) rest (vals ++ [.float64 val])
      else if t = "bool" then
        match ParseBool v with
        | (_, some err) => .ok (none, some (.wrap err "error ParseBool"))
        | (val, none) => makeValsLoop ParseFloat types (i + 1) rest (vals ++ [.bool val])
      else if t = "date" then
        makeValsLoop ParseFloat types (i + 1) rest (vals ++ [.string v])
      else if t = "timestamp" then
        makeValsLoop ParseFloat types (i + 1) rest (vals ++ [.string v])
      else if t = "string" then
        makeValsLoop ParseFloat types (i + 1) rest (vals ++ [.string v])
      else
        .ok (none, some (.new ("invalid spanner data type " ++ t)))

/-- The function `makeVals(types, record)`. -/
def makeVals (ParseFloat : String → Float64 × Option GoError)
    (types : List String) (record : List String) : Except Panic ValsResult :=
  makeValsLoop ParseFloat types 0 record []

/-- The body of the `switch types[i]` statement of `makeVals` for one field `v`
declared with tag `t`: the value that is appended to `vals`, or the error that
`makeVals` returns. -/
def coerce (ParseFloat : String → Float64 × Option GoError) (t v : String) : Except GoError Val :=
  if t = "int64" then
    match ParseInt v with
    | (_, some err) => .error (.wrap err "error ParseInt")
    | (val, none) => .ok (.int64 val)
  else if t = "float64" then
    match ParseFloat v with
    | (_, some err) => .error (.wrap err "error ParseFloat")
    | (val, none) => .ok (.float64 val)
  else if t = "bool" then
    match ParseBool v with
    | (_, some err) => .error (.wrap err "error ParseBool")
    | (val, none) => .ok (.bool val)
  else if t = "date" then .ok (.string v)
  else if t = "timestamp" then .ok (.string v)
  else if t = "string" then .ok (.string v)
  else .error (.new ("invalid spanner data type " ++ t))

/-- The text `v` does not parse under the tag `t`, one of `int64`, `float64`, `bool`. -/
def ParseFails (ParseFloat : String → Float64 × Option GoError) (t v : String) : Prop :=
  (t = "int64" ∧ (ParseInt v).2 ≠ none) ∨
  (t = "float64" ∧ (ParseFloat v).2 ≠ none) ∨
  (t = "bool" ∧ (ParseBool v).2 ≠ none)

/-- The fields of `record` at positions below `j` coerce successfully under the
tags found `i` places further in `types`. -/
def FieldsOk (ParseFloat : String → Float64 × Option GoError) (types record : List String)
    (i j : Nat) : Prop :=
  ∀ k, k < j → ∃ t v x, types[i + k]? = some t ∧ record[k]? = some v ∧
    coerce ParseFloat t v = .ok x

/-- The base-10 text of an integer, as `strconv.FormatInt(v, 10)` writes it: the
decimal digits of the absolute value, most significant first and without
leading zeros, after a `-` sign when the integer is negative. -/
def formatInt (v : Int) : String :=
  if v < 0 then "-" ++ Nat.repr v.natAbs else Nat.repr v.natAbs

/-- The text `strconv.FormatBool` writes for a boolean. -/
def formatBool (b : Bool) : String :=
  if b then "true" else "false"

/-! ## `load` -/

/-- A `*spanner.Mutation`; the program builds them with `spanner.InsertOrUpdate`
only. -/
inductive Mutation where
  | InsertOrUpdate (table : String) (cols : List String) (vals : Option (List Val))
  deriving DecidableEq, Repr

/-- One result of `reader.Read()` on the csv reader: the record and the error.
A row read without error has `err = none`; end of data is `err = some EOF`;
any other error is a read failure, which the csv reader returns together with
the fields it has parsed. -/
structure ReadResult where
  record : List String
  err : Option GoError
  deriving DecidableEq, Repr

/-- A row read without error. -/
def readOk (row : List String) : ReadResult := ⟨row, none⟩

/-- The database client: the error of `spanner.NewClient(ctx, database)` and the
error of `cli.Apply(ctx, m)`. -/
structure Spanner where
  NewClient : String → Option GoError
  Apply : List Mutation → Option GoError

/-- How the `for` loop of `load` is left: by `break`, with the batch `m`, or by
the `return` inside it. -/
inductive LoopExit where
  | brk (m : List Mutation)
  | ret (err : GoError)
  deriving DecidableEq, Repr

/-- The `for` loop of `load`. The csv reader is the list of the results its
successive `Read()` calls give; once the list is used up `Read()` gives
`io.EOF`. The other arguments are the loop variables `colNum`, `columns`,
`types` and `m`. -/
def loadLoop (ParseFloat : String → Float64 × Option GoError) (spannerTable : String) :
    List ReadResult → Nat → List String → List String → List Mutation → Except Panic LoopExit
  | [], _, _, _, m => .ok (.brk m)
  | r :: reader, colNum, columns, types, m =>
    if r.err = some .EOF then .ok (.brk m)
    else if colNum = 0 then
      loadLoop ParseFloat spannerTable reader (colNum + 1) (columns ++ r.record) types m
    else if colNum = 1 then
      loadLoop ParseFloat spannerTable reader (colNum + 1) columns (types ++ r.record) m
    else
      match makeVals ParseFloat types r.record with
      | .error p => .error p
      | .ok (_, some err) => .ok (.ret (.wrap err "error makeVals"))
      | .ok (vals, none) =>
        loadLoop ParseFloat spannerTable reader (colNum + 1) columns types
          (m ++ [.InsertOrUpdate spannerTable columns vals])

/-- What a call of `load` does: it returns an error (or nil) unless it panics,
and `applied` lists the batches of its `cli.Apply` calls, in order. -/
structure LoadResult where
  outcome : Except Panic (Option GoError)
  applied : List (List Mutation)
  deriving DecidableEq, Repr

/-- The database name `load` formats for `spanner.NewClient`:
`projects/%s/instances/%s/databases/%s`. -/
def databaseName (spannerProjectID spannerInstanceID spannerDatabaseID : String) : String :=
  "projects/" ++ spannerProjectID ++ "/instances/" ++ spannerInstanceID ++
    "/databases/" ++ spannerDatabaseID

/-- The function `load`. `reader` is the csv reader built from `r` and `opt`. -/
def load (ParseFloat : String → Float64 × Option GoError) (db : Spanner)
    (reader : List ReadResult)
    (spannerProjectID spannerInstanceID spannerDatabaseID spannerTable : String) : LoadResult :=
  match db.NewClient (databaseName spannerProjectID spannerInstanceID spannerDatabaseID) with
  | some err => ⟨.ok (some (.wrap err "failed NewClient")), []⟩
  | none =>
    match loadLoop ParseFloat spannerTable reader 0 [] [] [] with
    | .error p => ⟨.error p, []⟩
    | .ok (.ret err) => ⟨.ok (some err), []⟩
    | .ok (.brk m) =>
      match db.Apply m with
      | some err => ⟨.ok (some (.wrap err "error Apply")), [m]⟩
      | none => ⟨.ok none, [m]⟩

/-! ## `run` -/

/-- The struct `loadOptions`. -/
structure loadOptions where
  comma : Char
  trimLeadingSpace : Bool
  lazyQuotes : Bool
  deriving DecidableEq, Repr

/-- An `io.Reader`, known by a handle. -/
structure Stream where
  handle : Nat
  deriving DecidableEq, Repr

/-- The object storage: the error of `storage.NewClient(ctx)` (the client it
returns is nil exactly when there is one), the result of
`client.Bucket(bucket).Object(path).NewReader(ctx)` and the error of
`client.Close()` on a client that exists. -/
structure Storage where
  NewClient : Option GoError
  NewReader : String → String → Except GoError Stream
  Close : Option GoError

/-- How a call ends when it does not return: by a panic, or by `log.Fatalf`,
which ends the process after logging the error. -/
inductive Abort where
  | panic (p : Panic)
  | fatal (err : GoError)
  deriving DecidableEq, Repr

/-- The function `createGCSReader`; a returned pair `(r, nil)` is `.ok r` and a
returned pair `(nil, err)` is `.error err`. The deferred function runs when the
body returns: it calls `client.Close()`, on the nil client when
`storage.NewClient` has failed, and calls `log.Fatalf` when `Close` fails. -/
def createGCSReader (st : Storage) (bucket path : String) :
    Except Abort (Except GoError Stream) :=
  match st.NewClient with
  | some _ => .error (.panic .nilDereference)
  | none =>
    let result : Except GoError Stream :=
      match st.NewReader bucket path with
      | .error err => .error (.wrap err "failed NewReader")
      | .ok r => .ok r
    match st.Close with
    | some err => .error (.fatal err)
    | none => .ok result

/-- The collaborators of `run`: `strconv.ParseFloat`, the database client, the
object storage, `os.Open`, and the csv reader that `load` builds from a stream
and the options. -/
structure World where
  ParseFloat : String → Float64 × Option GoError
  db : Spanner
  storage : Storage
  osOpen : String → Except GoError Stream
  csv : Stream → loadOptions → List ReadResult

/-- The calls `run` makes to the outside, in order. -/
inductive Event where
  | createGCSReader (bucket path : String)
  | osOpen (name : String)
  | load (applied : List (List Mutation))
  deriving DecidableEq, Repr

/-- What a call of `run` does: the error it returns (or nil) unless it panics
or the process is ended, and the calls it has made. -/
structure RunResult where
  outcome : Except Abort (Option GoError)
  trace : List Event
  deriving DecidableEq, Repr

/-- The end of `run`: the call of `load` on the stream that was opened. -/
def runLoad (w : World) (reader : Stream) (opened : Event)
    (spannerProject spannerInstance spannerDatabase spannerTable : String)
    (opt : loadOptions) : RunResult :=
  let res := load w.ParseFloat w.db (w.csv reader opt) spannerProject spannerInstance
    spannerDatabase spannerTable
  match res.outcome with
  | .error p => ⟨.error (.panic p), [opened, .load res.applied]⟩
  | .ok (some err) => ⟨.ok (some (.wrap err "error: load")), [opened, .load res.applied]⟩
  | .ok none => ⟨.ok none, [opened, .load res.applied]⟩

/-- The function `run`. -/
def run (w : World) (source bucket path spannerProject spannerInstance spannerDatabase
    spannerTable delimiter : String) (lazyQuotes trimLeadingSpace : Bool) : RunResult :=
  if source = "" then ⟨.ok (some (.new "source is not set")), []⟩
  else if spannerProject = "" then ⟨.ok (some (.new "spanner-project-id is not set")), []⟩
  else if spannerInstance = "" then ⟨.ok (some (.new "spanner-instance-id is not set")), []⟩
  else if spannerDatabase = "" then ⟨.ok (some (.new "spanner-database-id is not set")), []⟩
  else if spannerTable = "" then ⟨.ok (some (.new "spanner-table is not set")), []⟩
  else
    let delim : Option Char :=
      if delimiter = "comma" then some ','
      else if delimiter = "tab" then some '\t'
      else none
    match delim with
    | none => ⟨.ok (some (.new "invalid delimiter type. You can only use: comma or tab")), []⟩
    | some comma =>
      let opt : loadOptions := ⟨comma, trimLeadingSpace, lazyQuotes⟩
      if source = "gcs" then
        if bucket = "" then ⟨.ok (some (.new "bucket is not set")), []⟩
        else if path = "" then ⟨.ok (some (.new "path is not set")), []⟩
        else
          match createGCSReader w.storage bucket path with
          | .error a => ⟨.error a, [.createGCSReader bucket path]⟩
          | .ok (.error err) =>
            ⟨.ok (some (.wrap err "error: createGCSReader")), [.createGCSReader bucket path]⟩
          | .ok (.ok r) =>
            runLoad w r (.createGCSReader bucket path) spannerProject spannerInstance
              spannerDatabase spannerTable opt
      else
        match w.osOpen source with
        | .error err => ⟨.ok (some (.wrap err "error: os.Open")), [.osOpen source]⟩
        | .ok file =>
          runLoad w file (.osOpen source) spannerProject spannerInstance spannerDatabase
            spannerTable opt

/-! ## Definitions used to state the claims -/

/-- A `ParseFloat` that finds a syntax error in every text. It serves in
examples without a `float64` column. -/
def rejectFloat : String → Float64 × Option GoError :=
  fun s => (⟨0⟩, some (.numError "ParseFloat" s .ErrSyntax))

/-- A database whose client is created and whose `Apply` succeeds. -/
def okSpanner : Spanner := ⟨fun _ => none, fun _ => none⟩

/-- A read result with its failure forgotten: end of data stays end of data,
any other result becomes a row read without error. -/
def asRow (r : ReadResult) : ReadResult :=
  if r.err = some .EOF then r else ⟨r.record, none⟩

/-- What `encoding/csv` guarantees of the records it returns without error when
`FieldsPerRecord` is 0, as it is in `load`: every record has the field count of
the first one (a record of another count comes with `ErrFieldCount`). -/
def SameFieldCount (rows : List (List String)) : Prop :=
  ∀ row, row ∈ rows → row.length = (rows[0]?.getD []).length

/-- A world in which no source can be opened. -/
def closedWorld : World :=
  { ParseFloat := rejectFloat
    db := okSpanner
    storage := ⟨none, fun _ _ => .error (.lib "storage: object doesn't exist"), none⟩
    osOpen := fun _ => .error (.lib "open: no such file or directory")
    csv := fun _ _ => [] }

/-- The validations the specification lists for `run`, in its order: the
condition under which each one fails, and its message. -/
def validationChecks (source bucket path spannerProject spannerInstance spannerDatabase
    spannerTable delimiter : String) : List (Bool × String) :=
  [ (decide (source = ""), "source is not set"),
    (decide (spannerProject = ""), "spanner-project-id is not set"),
    (decide (spannerInstance = ""), "spanner-instance-id is not set"),
    (decide (spannerDatabase = ""), "spanner-database-id is not set"),
    (decide (spannerTable = ""), "spanner-table is not set"),
    (decide (delimiter ≠ "comma" ∧ delimiter ≠ "tab"),
      "invalid delimiter type. You can only use: comma or tab"),
    (decide (source = "gcs" ∧ bucket = ""), "bucket is not set"),
    (decide (source = "gcs" ∧ path = ""), "path is not set") ]

/-- The message of the first validation that fails, if one does. -/
def firstFailure (source bucket path spannerProject spannerInstance spannerDatabase
    spannerTable delimiter : String) : Option String :=
  ((validationChecks source bucket path spannerProject spannerInstance spannerDatabase
    spannerTable delimiter).find? (fun c => c.1)).map (fun c => c.2)

/-! ## Lemmas on `makeVals` -/

theorem makeValsLoop_cons (pf : String → Float64 × Option GoError) (types : List String)
    (i : Nat) (v : String) (rest : List String) (vals : List Val) :
    makeValsLoop pf types i (v :: rest) vals =
      match types[i]? with
      | none => .error (.indexOutOfRange i types.length)
      | some t =>
        match coerce pf t v with
        | .error e => .ok (none, some e)
        | .ok x => makeValsLoop pf types (i + 1) rest (vals ++ [x]) := by
  rw [makeValsLoop]
  cases types[i]? with
  | none => rfl
  | some t =>
    simp only [coerce]
    split_ifs <;> first | rfl | (split <;> simp_all)

theorem makeValsLoop_cons_none {pf : String → Float64 × Option GoError} {types : List String}
    {i : Nat} (v : String) (rest : List String) (vals : List Val) (ht : types[i]? = none) :
    makeValsLoop pf types i (v :: rest) vals = .error (.indexOutOfRange i types.length) := by
  rw [makeValsLoop_cons, ht]

theorem makeValsLoop_cons_error {pf : String → Float64 × Option GoError} {types : List String}
    {i : Nat} {t v : String} {e : GoError} (rest : List String) (vals : List Val)
    (ht : types[i]? = some t) (hx : coerce pf t v = .error e) :
    makeValsLoop pf types i (v :: rest) vals = .ok (none, some e) := by
  rw [makeValsLoop_cons, ht]; simp only [hx]

theorem makeValsLoop_cons_ok {pf : String → Float64 × Option GoError} {types : List String}
    {i : Nat} {t v : String} {x : Val} (rest : List String) (vals : List Val)
    (ht : types[i]? = some t) (hx : coerce pf t v = .ok x) :
    makeValsLoop pf types i (v :: rest) vals =
      makeValsLoop pf types (i + 1) rest (vals ++ [x]) := by
  rw [makeValsLoop_cons, ht]; simp only [hx]

theorem fieldsOk_succ {pf : String → Float64 × Option GoError} {types : List String}
    {i j : Nat} {t v : String} {rest : List String} {x : Val}
    (ht : types[i]? = some t) (hx : coerce pf t v = .ok x)
    (h : FieldsOk pf types rest (i + 1) j) : FieldsOk pf types (v :: rest) i (j + 1) := by
  intro k hk
  cases k with
  | zero => exact ⟨t, v, x, by simpa using ht, by simp, hx⟩
  | succ k =>
    obtain ⟨t', v', x', h1, h2, h3⟩ := h k (by omega)
    refine ⟨t', v', x', ?_, by simpa using h2, h3⟩
    have e : i + (k + 1) = i + 1 + k := by omega
    rw [e]; exact h1

/-- The three ways in which the loop of `makeVals` ends: every field coerces and
the values are appended in order; or the first field that does not coerce gives
the error returned together with a nil slice; or the index runs past the end of
`types` after a run of successful fields. -/
theorem makeValsLoop_cases (pf : String → Float64 × Option GoError) (types : List String)
    (record : List String) : ∀ (i : Nat) (vals : List Val),
    (∃ out : List Val, makeValsLoop pf types i record vals = .ok (some (vals ++ out), none) ∧
        out.length = record.length ∧
        ∀ k, k < record.length → ∃ t v x, types[i + k]? = some t ∧ record[k]? = some v ∧
          coerce pf t v = .ok x ∧ out[k]? = some x) ∨
    (∃ j t v e, types[i + j]? = some t ∧ record[j]? = some v ∧ coerce pf t v = .error e ∧
        FieldsOk pf types record i j ∧
        makeValsLoop pf types i record vals = .ok (none, some e)) ∨
    (∃ j, j < record.length ∧ types[i + j]? = none ∧ FieldsOk pf types record i j ∧
        makeValsLoop pf types i record vals = .error (.indexOutOfRange (i + j) types.length)) := by
  induction record with
  | nil =>
    intro i vals
    exact Or.inl ⟨[], by simp [makeValsLoop], rfl, fun k hk => absurd hk (by simp)⟩
  | cons v rest ih =>
    intro i vals
    cases ht : types[i]? with
    | none =>
      exact Or.inr (Or.inr ⟨0, by simp, by simpa using ht, fun k hk => absurd hk (by omega),
        makeValsLoop_cons_none v rest vals ht⟩)
    | some t =>
      cases hx : coerce pf t v with
      | error e =>
        exact Or.inr (Or.inl ⟨0, t, v, e, by simpa using ht, by simp, hx,
          fun k hk => absurd hk (by omega), makeValsLoop_cons_error rest vals ht hx⟩)
      | ok x =>
        rw [makeValsLoop_cons_ok rest vals ht hx]
        rcases ih (i + 1) (vals ++ [x]) with ⟨out, h1, h2, h3⟩ | ⟨j, t', v', e, h1, h2, h3, h4, h5⟩ |
          ⟨j, h1, h2, h3, h4⟩
        · refine Or.inl ⟨x :: out, by simpa using h1, by simp [h2], ?_⟩
          intro k hk
          cases k with
          | zero => exact ⟨t, v, x, by simpa using ht, by simp, hx, by simp⟩
          | succ k =>
            obtain ⟨t', v', x', g1, g2, g3, g4⟩ := h3 k (by simpa using hk)
            have e : i + (k + 1) = i + 1 + k := by omega
            exact ⟨t', v', x', by rw [e]; exact g1, by simpa using g2, g3, by simpa using g4⟩
        · have e' : i + (j + 1) = i + 1 + j := by omega
          exact Or.inr (Or.inl ⟨j + 1, t', v', e, by rw [e']; exact h1, by simpa using h2, h3,
            fieldsOk_succ ht hx h4, h5⟩)
        · have e' : i + (j + 1) = i + 1 + j := by omega
          exact Or.inr (Or.inr ⟨j + 1, by simpa using h1, by rw [e']; exact h2,
            fieldsOk_succ ht hx h3, by rw [e']; exact h4⟩)

theorem coerce_text (pf : String → Float64 × Option GoError) {t : String} (v : String)
    (ht : t = "string" ∨ t = "date" ∨ t = "timestamp") : coerce pf t v = .ok (.string v) := by
  rcases ht with rfl | rfl | rfl <;> simp [coerce]

theorem coerce_error_of_parseFails {pf : String → Float64 × Option GoError} {t v : String}
    (h : ParseFails pf t v) : ∃ e, coerce pf t v = .error e := by
  rcases h with ⟨rfl, h⟩ | ⟨rfl, h⟩ | ⟨rfl, h⟩
  · rcases hp : ParseInt v with ⟨a, _ | err⟩
    · rw [hp] at h; exact absurd rfl h
    · exact ⟨.wrap err "error ParseInt", by simp [coerce, hp]⟩
  · rcases hp : pf v with ⟨a, _ | err⟩
    · rw [hp] at h; exact absurd rfl h
    · exact ⟨.wrap err "error ParseFloat", by simp [coerce, hp]⟩
  · rcases hp : ParseBool v with ⟨a, _ | err⟩
    · rw [hp] at h; exact absurd rfl h
    · exact ⟨.wrap err "error ParseBool", by simp [coerce, hp]⟩

theorem lt_length_of_getElem?_eq_some {α : Type} {l : List α} {k : Nat} {a : α}
    (h : l[k]? = some a) : k < l.length := by
  by_contra hk
  have : l[k]? = none := List.getElem?_eq_none (by omega)
  rw [this] at h; exact Option.noConfusion h

/-- With a record no longer than the tag list the index never leaves `types`. -/
theorem makeVals_cases_of_le (pf : String → Float64 × Option GoError) (types record : List String)
    (hlen : record.length ≤ types.length) :
    (∃ out : List Val, makeVals pf types record = .ok (some out, none) ∧
        out.length = record.length ∧
        ∀ k, k < record.length → ∃ t v x, types[k]? = some t ∧ record[k]? = some v ∧
          coerce pf t v = .ok x ∧ out[k]? = some x) ∨
    (∃ j t v e, types[j]? = some t ∧ record[j]? = some v ∧ coerce pf t v = .error e ∧
        FieldsOk pf types record 0 j ∧ makeVals pf types record = .ok (none, some e)) := by
  rcases makeValsLoop_cases pf types record 0 [] with ⟨out, h1, h2, h3⟩ | ⟨j, t, v, e, h1, h2, h3, h4, h5⟩ |
    ⟨j, h1, h2, h3, h4⟩
  · refine Or.inl ⟨out, by simpa [makeVals] using h1, h2, ?_⟩
    intro k hk
    obtain ⟨t, v, x, g1, g2, g3, g4⟩ := h3 k hk
    exact ⟨t, v, x, by simpa using g1, g2, g3, g4⟩
  · exact Or.inr ⟨j, t, v, e, by simpa using h1, h2, h3, h4, h5⟩
  · exfalso
    have : types.length ≤ 0 + j := List.getElem?_eq_none_iff.mp h2
    omega

/-! ## Lemmas on `strconv` -/

theorem digitVal_digitChar {d : Nat} (hd : d < 10) : digitVal (Nat.digitChar d) = some d := by
  interval_cases d <;> rfl

theorem parseUintLoop_digit {d : Nat} (hd : d < 10) (acc : Nat) (rest : List Char)
    (hacc : acc * 10 + d < 2 ^ 64) :
    parseUintLoop (Nat.digitChar d :: rest) acc = parseUintLoop rest (acc * 10 + d) := by
  have hmax : maxUint64 = 18446744073709551615 := by rfl
  have h1 : ¬ (d ≥ 10) := by omega
  have h2 : ¬ (acc ≥ maxUint64 / 10 + 1) := by rw [hmax]; omega
  have h3 : (acc * 10) % 2 ^ 64 = acc * 10 := Nat.mod_eq_of_lt (by omega)
  have h4 : (acc * 10 + d) % 2 ^ 64 = acc * 10 + d := Nat.mod_eq_of_lt hacc
  have h5 : ¬ (acc * 10 + d < acc * 10 ∨ acc * 10 + d > maxUint64) := by rw [hmax]; omega
  rw [parseUintLoop, digitVal_digitChar hd]
  simp only [h1, h2, h3, h4, h5, if_false]

theorem toDigitsCore_append (fuel : Nat) : ∀ (n : Nat) (ds : List Char),
    Nat.toDigitsCore 10 fuel n ds = Nat.toDigitsCore 10 fuel n [] ++ ds := by
  induction fuel with
  | zero => intro n ds; simp [Nat.toDigitsCore]
  | succ fuel ih =>
    intro n ds
    simp only [Nat.toDigitsCore]
    split_ifs with h
    · simp
    · rw [ih (n / 10) (_ :: ds), ih (n / 10) [_]]
      simp

theorem parseUintLoop_toDigitsCore (fuel : Nat) : ∀ (n : Nat) (rest : List Char),
    n < fuel → n < 2 ^ 64 →
    parseUintLoop (Nat.toDigitsCore 10 fuel n [] ++ rest) 0 = parseUintLoop rest n := by
  induction fuel with
  | zero => intro n rest h; omega
  | succ fuel ih =>
    intro n rest hn hlt
    simp only [Nat.toDigitsCore]
    have hmod : n % 10 < 10 := Nat.mod_lt _ (by omega)
    split_ifs with h
    · have : n % 10 = n := by omega
      rw [List.singleton_append, parseUintLoop_digit hmod 0 rest (by omega)]
      rw [Nat.zero_mul, Nat.zero_add, this]
    · rw [toDigitsCore_append, List.append_assoc, List.singleton_append,
        ih (n / 10) _ (by omega) (by omega), parseUintLoop_digit hmod _ rest (by omega)]
      congr 1
      omega

theorem parseUintLoop_repr (n : Nat) (hn : n < 2 ^ 64) :
    parseUintLoop (Nat.repr n).data 0 = (n, none) := by
  have h := parseUintLoop_toDigitsCore (n + 1) n [] (by omega) hn
  simpa [Nat.repr, Nat.toDigits, List.asString, parseUintLoop] using h

theorem toDigits_ne_nil (n : Nat) : Nat.toDigits 10 n ≠ [] := by
  simp only [Nat.toDigits, Nat.toDigitsCore]
  split_ifs with h
  · simp
  · rw [toDigitsCore_append]; simp

theorem repr_data_cons (n : Nat) (hn : n < 2 ^ 64) :
    ∃ c cs, (Nat.repr n).data = c :: cs ∧ c ≠ '+' ∧ c ≠ '-' := by
  have h := parseUintLoop_repr n hn
  cases hd : (Nat.repr n).data with
  | nil => exact absurd hd (toDigits_ne_nil n)
  | cons c cs =>
    refine ⟨c, cs, rfl, ?_, ?_⟩
    · rintro rfl
      rw [hd] at h
      simp [parseUintLoop, digitVal] at h
    · rintro rfl
      rw [hd] at h
      simp [parseUintLoop, digitVal] at h

theorem toInt64_of_lt (x : Int) (h0 : -2 ^ 63 ≤ x) (h1 : x < 2 ^ 63) : toInt64 x = x := by
  unfold toInt64; omega

theorem pickSign_unsigned {s : String} {c : Char} {cs : List Char} (hd : s.data = c :: cs)
    (hp : c ≠ '+') (hm : c ≠ '-') : pickSign s = (false, s) := by
  unfold pickSign
  rw [hd]
  split
  · rename_i h; cases h; exact absurd rfl hp
  · rename_i h; cases h; exact absurd rfl hm
  · rfl

theorem pickSign_minus (s : String) : pickSign ("-" ++ s) = (true, s) := by
  unfold pickSign
  have : ("-" ++ s).data = '-' :: s.data := by simp [String.data_append]
  rw [this]
  split
  · rename_i h; simp at h
  · rename_i h; cases h; rfl
  · rename_i h; exact absurd rfl (h s.data)

theorem ParseInt_repr (n : Nat) (hn : n < 2 ^ 63) : ParseInt (Nat.repr n) = ((n : Int), none) := by
  obtain ⟨c, cs, hd, hp, hm⟩ := repr_data_cons n (by omega)
  have hne : Nat.repr n ≠ "" := by
    intro h; rw [h] at hd; cases hd
  have hu : ParseUint (Nat.repr n) = (n, none) := by
    rw [ParseUint, if_neg hne]; exact parseUintLoop_repr n (by omega)
  have h1 : ¬ ((false = false) ∧ n ≥ 2 ^ 63) := by omega
  rw [ParseInt, if_neg hne]
  simp only [pickSign_unsigned hd hp hm, hu, h1, if_false]
  have h2 : ¬ (9223372036854775808 ≤ n) := by omega
  simp [h2]
  exact toInt64_of_lt (n : Int) (by omega) (by omega)

theorem ParseInt_neg_repr (n : Nat) (h0 : 0 < n) (hn : n ≤ 2 ^ 63) :
    ParseInt ("-" ++ Nat.repr n) = (-(n : Int), none) := by
  have hne : "-" ++ Nat.repr n ≠ "" := by
    intro h
    have := congrArg String.data h
    simp [String.data_append] at this
  obtain ⟨c, cs, hd, hp, hm⟩ := repr_data_cons n (by omega)
  have hne' : Nat.repr n ≠ "" := by
    intro h; rw [h] at hd; cases hd
  have hu : ParseUint (Nat.repr n) = (n, none) := by
    rw [ParseUint, if_neg hne']; exact parseUintLoop_repr n (by omega)
  have h1 : ¬ (n > 2 ^ 63) := by omega
  rw [ParseInt, if_neg hne]
  simp only [pickSign_minus, hu, h1]
  simp
  unfold toInt64
  omega

theorem ParseInt_formatInt (v : Int) (h0 : -2 ^ 63 ≤ v) (h1 : v ≤ 2 ^ 63 - 1) :
    ParseInt (formatInt v) = (v, none) := by
  unfold formatInt
  split_ifs with h
  · rw [ParseInt_neg_repr v.natAbs (by omega) (by omega)]
    congr 1; omega
  · rw [ParseInt_repr v.natAbs (by omega)]
    congr 1; omega

/-! ## Claims on `makeVals` -/

/-- C1: a type tag outside `int64`, `float64`, `bool`, `string`, `date`,
`timestamp` makes `makeVals([t], [s])` return a nil slice and an error, whatever
the text `s` is; the message of the error is `invalid spanner data type `
followed by the tag. -/
theorem makeVals_unrecognised_tag (pf : String → Float64 × Option GoError) (t s : String)
    (ht : t ≠ "int64" ∧ t ≠ "float64" ∧ t ≠ "bool" ∧ t ≠ "string" ∧ t ≠ "date" ∧
      t ≠ "timestamp") :
    makeVals pf [t] [s] = .ok (none, some (.new ("invalid spanner data type " ++ t))) ∧
    ∀ quote : String → String,
      (GoError.new ("invalid spanner data type " ++ t)).Error quote =
        "invalid spanner data type " ++ t := by
  obtain ⟨h1, h2, h3, h4, h5, h6⟩ := ht
  refine ⟨?_, fun _ => rfl⟩
  have hx : coerce pf t s = .error (.new ("invalid spanner data type " ++ t)) := by
    simp [coerce, h1, h2, h3, h4, h5, h6]
  exact makeValsLoop_cons_error [] [] (by simp) hx

/-- C2: when every tag is one of `string`, `date`, `timestamp` and the record is
no longer than the tag list, `makeVals` succeeds and returns the texts of the
record themselves, in order and unchanged. -/
theorem makeVals_text_passthrough (pf : String → Float64 × Option GoError)
    (types record : List String)
    (htags : ∀ t, t ∈ types → t = "string" ∨ t = "date" ∨ t = "timestamp")
    (hlen : record.length ≤ types.length) :
    makeVals pf types record = .ok (some (record.map Val.string), none) ∧
    (record.map Val.string).length = record.length ∧
    ∀ (i : Nat) (v : String), record[i]? = some v →
      (record.map Val.string)[i]? = some (Val.string v) := by
  refine ⟨?_, by simp, fun i v h => by simp [h]⟩
  rcases makeVals_cases_of_le pf types record hlen with ⟨out, h1, h2, h3⟩ |
    ⟨j, t, v, e, h1, h2, h3, _, _⟩
  · have : out = record.map Val.string := by
      apply List.ext_getElem?
      intro k
      by_cases hk : k < record.length
      · obtain ⟨t, v, x, g1, g2, g3, g4⟩ := h3 k hk
        have hmem : t ∈ types := List.getElem?_mem g1
        rw [coerce_text pf v (htags t hmem)] at g3
        cases g3
        simp [g2, g4]
      · have e1 : out[k]? = none := List.getElem?_eq_none (by omega)
        have e2 : (record.map Val.string)[k]? = none := List.getElem?_eq_none (by simp; omega)
        rw [e1, e2]
    rw [h1, this]
  · have hmem : t ∈ types := List.getElem?_mem h1
    rw [coerce_text pf v (htags t hmem)] at h3
    cases h3

/-- C4: when the record is no longer than the tag list and some field does not
parse under its `int64`, `float64` or `bool` tag, `makeVals` returns a nil slice
together with the error of the first position whose field does not coerce; the
text `foo` parses neither as `int64` nor as `bool`. -/
theorem makeVals_bad_field (pf : String → Float64 × Option GoError) (types record : List String)
    (hlen : record.length ≤ types.length)
    (hbad : ∃ (i : Nat) (t v : String), types[i]? = some t ∧ record[i]? = some v ∧
      ParseFails pf t v) :
    (∃ (j : Nat) (t v : String) (e : GoError), types[j]? = some t ∧ record[j]? = some v ∧
      coerce pf t v = .error e ∧
      (∀ k : Nat, k < j → ∃ t' v' x, types[k]? = some t' ∧ record[k]? = some v' ∧
        coerce pf t' v' = .ok x) ∧
      makeVals pf types record = .ok (none, some e)) ∧
    ParseFails pf "int64" "foo" ∧ ParseFails pf "bool" "foo" := by
  refine ⟨?_, Or.inl ⟨rfl, by decide⟩, Or.inr (Or.inr ⟨rfl, by decide⟩)⟩
  rcases makeVals_cases_of_le pf types record hlen with ⟨out, _, _, h3⟩ |
    ⟨j, t, v, e, h1, h2, h3, h4, h5⟩
  · exfalso
    obtain ⟨i, t, v, g1, g2, g3⟩ := hbad
    obtain ⟨t', v', x, f1, f2, f3, _⟩ := h3 i (lt_length_of_getElem?_eq_some g2)
    rw [g1] at f1; rw [g2] at f2
    cases f1; cases f2
    obtain ⟨e, he⟩ := coerce_error_of_parseFails g3
    rw [he] at f3; cases f3
  · refine ⟨j, t, v, e, h1, h2, h3, ?_, h5⟩
    intro k hk
    obtain ⟨t', v', x, f1, f2, f3⟩ := h4 k hk
    exact ⟨t', v', x, by simpa using f1, f2, f3⟩

/-- C5, as the code has it: a record returned by `makeVals` has as many values
as the data row has fields, and the data row is no longer than the tag list;
so it has as many values as the schema has columns exactly when the data row
has as many fields as the schema. -/
theorem makeVals_length (pf : String → Float64 × Option GoError) (types record : List String)
    (vals : List Val) (h : makeVals pf types record = .ok (some vals, none)) :
    vals.length = record.length ∧ record.length ≤ types.length ∧
      (vals.length = types.length ↔ record.length = types.length) := by
  have key : vals.length = record.length ∧ record.length ≤ types.length := by
    rcases makeValsLoop_cases pf types record 0 [] with ⟨out, h1, h2, h3⟩ |
      ⟨j, t, v, e, _, _, _, _, h5⟩ | ⟨j, _, _, _, h4⟩
    · have h1' : makeVals pf types record = .ok (some out, none) := by simpa [makeVals] using h1
      rw [h1'] at h
      have : out = vals := by simpa using h
      subst this
      refine ⟨h2, ?_⟩
      by_contra hlt
      obtain ⟨t, v, x, g1, _, _, _⟩ := h3 types.length (by omega)
      have := lt_length_of_getElem?_eq_some g1
      omega
    · have h5' : makeVals pf types record = .ok (none, some e) := h5
      rw [h5'] at h; simp at h
    · have h4' : makeVals pf types record = .error (.indexOutOfRange (0 + j) types.length) := h4
      rw [h4'] at h; cases h
  exact ⟨key.1, key.2, by rw [key.1]⟩

/-- C10: `makeVals` panics on the lookup `types[i]` exactly when the record is
longer than the tag list and every field that has a tag coerces; the index is
then the length of the tag list. With a record no longer than the tag list
`makeVals` returns, either a value list or an error with a nil slice. -/
theorem makeVals_panic_iff (pf : String → Float64 × Option GoError) (types record : List String) :
    ((∃ p, makeVals pf types record = .error p) ↔
      (types.length < record.length ∧
        ∀ (k : Nat) (t v : String), types[k]? = some t → record[k]? = some v →
          ∃ x, coerce pf t v = .ok x)) ∧
    ((∃ p, makeVals pf types record = .error p) →
      makeVals pf types record = .error (.indexOutOfRange types.length types.length)) ∧
    (record.length ≤ types.length →
      (∃ vals, makeVals pf types record = .ok (some vals, none)) ∨
      (∃ e, makeVals pf types record = .ok (none, some e))) := by
  have main : (∃ p, makeVals pf types record = .error p) →
      (types.length < record.length ∧
        (∀ (k : Nat) (t v : String), types[k]? = some t → record[k]? = some v →
          ∃ x, coerce pf t v = .ok x)) ∧
      makeVals pf types record = .error (.indexOutOfRange types.length types.length) := by
    rintro ⟨p, hp⟩
    rcases makeValsLoop_cases pf types record 0 [] with ⟨out, h1, _, _⟩ |
      ⟨j, t, v, e, _, _, _, _, h5⟩ | ⟨j, h1, h2, h3, h4⟩
    · have h1' : makeVals pf types record = .ok (some ([] ++ out), none) := h1
      rw [h1'] at hp; cases hp
    · have h5' : makeVals pf types record = .ok (none, some e) := h5
      rw [h5'] at hp; cases hp
    · have hj : types.length ≤ 0 + j := List.getElem?_eq_none_iff.mp h2
      refine ⟨⟨by omega, ?_⟩, ?_⟩
      · intro k t v g1 g2
        have hk : k < types.length := lt_length_of_getElem?_eq_some g1
        obtain ⟨t', v', x, f1, f2, f3⟩ := h3 k (by omega)
        have f1' : types[k]? = some t' := by simpa using f1
        rw [g1] at f1'; rw [g2] at f2
        cases f1'; cases f2
        exact ⟨x, f3⟩
      · have hjeq : 0 + j = types.length := by
          by_contra hne
          obtain ⟨t', v', x, f1, _, _⟩ := h3 types.length (by omega)
          have := lt_length_of_getElem?_eq_some f1
          omega
        have h4' : makeVals pf types record = .error (.indexOutOfRange (0 + j) types.length) := h4
        rw [h4', hjeq]
  refine ⟨⟨fun h => (main h).1, ?_⟩, fun h => (main h).2, ?_⟩
  · rintro ⟨hlt, hall⟩
    rcases makeValsLoop_cases pf types record 0 [] with ⟨out, _, _, h3⟩ |
      ⟨j, t, v, e, h1, h2, h3, _, _⟩ | ⟨j, _, _, _, h4⟩
    · exfalso
      obtain ⟨t, v, x, g1, _, _, _⟩ := h3 types.length hlt
      have := lt_length_of_getElem?_eq_some g1
      omega
    · exfalso
      obtain ⟨x, hx⟩ := hall j t v (by simpa using h1) h2
      rw [hx] at h3; cases h3
    · exact ⟨_, h4⟩
  · intro hlen
    rcases makeVals_cases_of_le pf types record hlen with ⟨out, h1, _, _⟩ |
      ⟨j, t, v, e, _, _, _, _, h5⟩
    · exact Or.inl ⟨out, h1⟩
    · exact Or.inr ⟨e, h5⟩

/-- C3: `makeVals` reads back the base-10 text of every 64-bit integer, the two
boundary values included, and the texts `true` and `false` of the booleans. -/
theorem makeVals_roundtrip (pf : String → Float64 × Option GoError) :
    (∀ v : Int, -2 ^ 63 ≤ v → v ≤ 2 ^ 63 - 1 →
      makeVals pf ["int64"] [formatInt v] = .ok (some [Val.int64 v], none)) ∧
    (∀ b : Bool, makeVals pf ["bool"] [formatBool b] = .ok (some [Val.bool b], none)) := by
  constructor
  · intro v h0 h1
    have hx : coerce pf "int64" (formatInt v) = .ok (Val.int64 v) := by
      simp [coerce, ParseInt_formatInt v h0 h1]
    have := @makeValsLoop_cons_ok pf ["int64"] 0 "int64" (formatInt v) (Val.int64 v) [] []
      (by simp) hx
    simpa [makeVals, makeValsLoop] using this
  · intro b
    have hx : coerce pf "bool" (formatBool b) = .ok (Val.bool b) := by
      cases b <;> simp [coerce, formatBool, ParseBool]
    have := @makeValsLoop_cons_ok pf ["bool"] 0 "bool" (formatBool b) (Val.bool b) [] []
      (by simp) hx
    simpa [makeVals, makeValsLoop] using this

/-! ## Lemmas on `load` -/

theorem loadLoop_row_ok {pf : String → Float64 × Option GoError} {types row : List String}
    {vals : Option (List Val)} (table : String) (reader : List ReadResult) (colNum : Nat)
    (columns : List String) (m : List Mutation) (h2 : 2 ≤ colNum)
    (h : makeVals pf types row = .ok (vals, none)) :
    loadLoop pf table (readOk row :: reader) colNum columns types m =
      loadLoop pf table reader (colNum + 1) columns types
        (m ++ [.InsertOrUpdate table columns vals]) := by
  have h0 : colNum ≠ 0 := by omega
  have h1 : colNum ≠ 1 := by omega
  rw [loadLoop]
  simp [readOk, h0, h1, h]

theorem loadLoop_row_error {pf : String → Float64 × Option GoError} {types row : List String}
    {vals : Option (List Val)} {e : GoError} (table : String) (reader : List ReadResult)
    (colNum : Nat) (columns : List String) (m : List Mutation) (h2 : 2 ≤ colNum)
    (h : makeVals pf types row = .ok (vals, some e)) :
    loadLoop pf table (readOk row :: reader) colNum columns types m =
      .ok (.ret (.wrap e "error makeVals")) := by
  have h0 : colNum ≠ 0 := by omega
  have h1 : colNum ≠ 1 := by omega
  rw [loadLoop]
  simp [readOk, h0, h1, h]

/-- The loop over data rows that all decode: it is left by `break` with one
upsert per row appended to the batch, in input order. -/
theorem loadLoop_rows_ok (pf : String → Float64 × Option GoError) (table : String)
    (columns types : List String) : ∀ (data : List (List String)) (colNum : Nat)
    (m : List Mutation), 2 ≤ colNum →
    (∀ r, r ∈ data → ∃ vals, makeVals pf types r = .ok (some vals, none)) →
    ∃ batch : List Mutation,
      loadLoop pf table (data.map readOk) colNum columns types m = .ok (.brk (m ++ batch)) ∧
      batch.length = data.length ∧
      ∀ (k : Nat) (row : List String), data[k]? = some row →
        ∃ vals, makeVals pf types row = .ok (some vals, none) ∧
          batch[k]? = some (.InsertOrUpdate table columns (some vals)) := by
  intro data
  induction data with
  | nil =>
    intro colNum m _ _
    exact ⟨[], by simp [loadLoop], rfl, fun k row h => by simp at h⟩
  | cons r rs ih =>
    intro colNum m h2 hall
    obtain ⟨vals, hv⟩ := hall r (List.mem_cons_self r rs)
    obtain ⟨batch, g1, g2, g3⟩ := ih (colNum + 1) (m ++ [.InsertOrUpdate table columns (some vals)])
      (by omega) (fun r' hr' => hall r' (List.mem_cons_of_mem r hr'))
    refine ⟨.InsertOrUpdate table columns (some vals) :: batch, ?_, by simp [g2], ?_⟩
    · rw [List.map_cons, loadLoop_row_ok table _ colNum columns m h2 hv, g1]
      simp
    · intro k row hk
      cases k with
      | zero =>
        have : r = row := by simpa using hk
        subst this
        exact ⟨vals, hv, by simp⟩
      | succ k =>
        obtain ⟨vals', f1, f2⟩ := g3 k row (by simpa using hk)
        exact ⟨vals', f1, by simpa using f2⟩

/-- The loop over data rows of which the first that does not decode gives an
error: it is left by `return` with that error, whatever rows follow. -/
theorem loadLoop_rows_bad (pf : String → Float64 × Option GoError) (table : String)
    (columns types : List String) (bad : List String) (rest : List (List String))
    (vals : Option (List Val)) (e : GoError)
    (hbad : makeVals pf types bad = .ok (vals, some e)) :
    ∀ (good : List (List String)) (colNum : Nat) (m : List Mutation), 2 ≤ colNum →
    (∀ r, r ∈ good → ∃ vals, makeVals pf types r = .ok (some vals, none)) →
    loadLoop pf table ((good ++ bad :: rest).map readOk) colNum columns types m =
      .ok (.ret (.wrap e "error makeVals")) := by
  intro good
  induction good with
  | nil =>
    intro colNum m h2 _
    rw [List.nil_append, List.map_cons, loadLoop_row_error table _ colNum columns m h2 hbad]
  | cons r rs ih =>
    intro colNum m h2 hall
    obtain ⟨vals', hv⟩ := hall r (List.mem_cons_self r rs)
    rw [List.cons_append, List.map_cons, loadLoop_row_ok table _ colNum columns m h2 hv]
    exact ih (colNum + 1) _ (by omega) (fun r' hr' => hall r' (List.mem_cons_of_mem r hr'))

theorem loadLoop_header (pf : String → Float64 × Option GoError) (table : String)
    (header types : List String) (data : List (List String)) :
    loadLoop pf table ((header :: types :: data).map readOk) 0 [] [] [] =
      loadLoop pf table (data.map readOk) 2 header types [] := by
  simp [loadLoop, readOk]

theorem load_of_client_error {pf : String → Float64 × Option GoError} {db : Spanner}
    {p i d : String} {err : GoError} (reader : List ReadResult) (table : String)
    (hc : db.NewClient (databaseName p i d) = some err) :
    load pf db reader p i d table = ⟨.ok (some (.wrap err "failed NewClient")), []⟩ := by
  simp [load, hc]

theorem load_of_ret {pf : String → Float64 × Option GoError} {db : Spanner}
    {p i d table : String} {reader : List ReadResult} {e : GoError}
    (hc : db.NewClient (databaseName p i d) = none)
    (hl : loadLoop pf table reader 0 [] [] [] = .ok (.ret e)) :
    load pf db reader p i d table = ⟨.ok (some e), []⟩ := by
  simp [load, hc, hl]

theorem load_of_panic {pf : String → Float64 × Option GoError} {db : Spanner}
    {p i d table : String} {reader : List ReadResult} {pn : Panic}
    (hc : db.NewClient (databaseName p i d) = none)
    (hl : loadLoop pf table reader 0 [] [] [] = .error pn) :
    load pf db reader p i d table = ⟨.error pn, []⟩ := by
  simp [load, hc, hl]

theorem load_of_brk {pf : String → Float64 × Option GoError} {db : Spanner}
    {p i d table : String} {reader : List ReadResult} {m : List Mutation}
    (hc : db.NewClient (databaseName p i d) = none)
    (hl : loadLoop pf table reader 0 [] [] [] = .ok (.brk m)) :
    load pf db reader p i d table =
      ⟨.ok ((db.Apply m).map (fun err => GoError.wrap err "error Apply")), [m]⟩ := by
  cases ha : db.Apply m <;> simp [load, hc, hl, ha]

/-- The result of `load` when the first data row that does not decode gives the
error `e`: it does not depend on the rows that follow. -/
theorem load_first_bad (pf : String → Float64 × Option GoError) (db : Spanner)
    (p i d table : String) (header types : List String) (good : List (List String))
    (bad : List String) (rest : List (List String)) (vals : Option (List Val)) (e : GoError)
    (hgood : ∀ r, r ∈ good → ∃ vals, makeVals pf types r = .ok (some vals, none))
    (hbad : makeVals pf types bad = .ok (vals, some e)) :
    load pf db ((header :: types :: (good ++ bad :: rest)).map readOk) p i d table =
      match db.NewClient (databaseName p i d) with
      | some err => ⟨.ok (some (.wrap err "failed NewClient")), []⟩
      | none => ⟨.ok (some (.wrap e "error makeVals")), []⟩ := by
  cases hc : db.NewClient (databaseName p i d) with
  | some err => exact load_of_client_error _ table hc
  | none =>
    apply load_of_ret hc
    rw [loadLoop_header]
    exact loadLoop_rows_bad pf table header types bad rest vals e hbad good 2 [] (by omega) hgood

/-- A call of `makeVals` returns a value list, or returns an error with a nil
slice, or panics. -/
theorem makeVals_trichotomy (pf : String → Float64 × Option GoError) (types record : List String) :
    (∃ vals, makeVals pf types record = .ok (some vals, none)) ∨
    (∃ e, makeVals pf types record = .ok (none, some e)) ∨
    (∃ pn, makeVals pf types record = .error pn) := by
  rcases makeValsLoop_cases pf types record 0 [] with ⟨out, h1, _, _⟩ |
    ⟨j, t, v, e, _, _, _, _, h5⟩ | ⟨j, _, _, _, h4⟩
  · exact Or.inl ⟨[] ++ out, h1⟩
  · exact Or.inr (Or.inl ⟨e, h5⟩)
  · exact Or.inr (Or.inr ⟨_, h4⟩)

theorem loadLoop_row_panic {pf : String → Float64 × Option GoError} {types row : List String}
    {pn : Panic} (table : String) (reader : List ReadResult)
    (colNum : Nat) (columns : List String) (m : List Mutation) (h2 : 2 ≤ colNum)
    (h : makeVals pf types row = .error pn) :
    loadLoop pf table (readOk row :: reader) colNum columns types m = .error pn := by
  have h0 : colNum ≠ 0 := by omega
  have h1 : colNum ≠ 1 := by omega
  rw [loadLoop]
  simp [readOk, h0, h1, h]

/-- The loop over data rows of which the first that does not decode makes
`makeVals` panic: the loop panics, whatever rows follow. -/
theorem loadLoop_rows_panic (pf : String → Float64 × Option GoError) (table : String)
    (columns types : List String) (bad : List String) (rest : List (List String))
    (pn : Panic) (hbad : makeVals pf types bad = .error pn) :
    ∀ (good : List (List String)) (colNum : Nat) (m : List Mutation), 2 ≤ colNum →
    (∀ r, r ∈ good → ∃ vals, makeVals pf types r = .ok (some vals, none)) →
    loadLoop pf table ((good ++ bad :: rest).map readOk) colNum columns types m =
      .error pn := by
  intro good
  induction good with
  | nil =>
    intro colNum m h2 _
    rw [List.nil_append, List.map_cons, loadLoop_row_panic table _ colNum columns m h2 hbad]
  | cons r rs ih =>
    intro colNum m h2 hall
    obtain ⟨vals', hv⟩ := hall r (List.mem_cons_self r rs)
    rw [List.cons_append, List.map_cons, loadLoop_row_ok table _ colNum columns m h2 hv]
    exact ih (colNum + 1) _ (by omega) (fun r' hr' => hall r' (List.mem_cons_of_mem r hr'))

/-- The result of `load` when the first data row that does not decode makes
`makeVals` panic. -/
theorem load_first_panic (pf : String → Float64 × Option GoError) (db : Spanner)
    (p i d table : String) (header types : List String) (good : List (List String))
    (bad : List String) (rest : List (List String)) (pn : Panic)
    (hgood : ∀ r, r ∈ good → ∃ vals, makeVals pf types r = .ok (some vals, none))
    (hbad : makeVals pf types bad = .error pn) :
    load pf db ((header :: types :: (good ++ bad :: rest)).map readOk) p i d table =
      match db.NewClient (databaseName p i d) with
      | some err => ⟨.ok (some (.wrap err "failed NewClient")), []⟩
      | none => ⟨.error pn, []⟩ := by
  have hl : loadLoop pf table ((header :: types :: (good ++ bad :: rest)).map readOk)
      0 [] [] [] = .error pn := by
    rw [loadLoop_header]
    exact loadLoop_rows_panic pf table header types bad rest pn hbad good 2 [] (by omega) hgood
  cases hc : db.NewClient (databaseName p i d) with
  | some err => exact load_of_client_error _ table hc
  | none => exact load_of_panic hc hl

/-- The result of `load` when the rows before `bad` decode and `bad` does not:
no `Apply` call, an outcome that is not a nil return and that the rows after
`bad` have no part in. -/
theorem load_first_undecoded (pf : String → Float64 × Option GoError) (db : Spanner)
    (p i d table : String) (header types : List String) (good : List (List String))
    (bad : List String)
    (hgood : ∀ r, r ∈ good → ∃ vals, makeVals pf types r = .ok (some vals, none))
    (hbad : ∀ vals, makeVals pf types bad ≠ .ok (some vals, none)) :
    ∃ X : Except Panic (Option GoError), X ≠ .ok none ∧
      (∀ e, makeVals pf types bad = .ok (none, some e) →
        X = .ok (some (.wrap e "error makeVals"))) ∧
      (∀ pn, makeVals pf types bad = .error pn → X = .error pn) ∧
      ∀ rest : List (List String),
        load pf db ((header :: types :: (good ++ bad :: rest)).map readOk) p i d table =
          match db.NewClient (databaseName p i d) with
          | some err => ⟨.ok (some (.wrap err "failed NewClient")), []⟩
          | none => ⟨X, []⟩ := by
  rcases makeVals_trichotomy pf types bad with ⟨vals, h⟩ | ⟨e, h⟩ | ⟨pn, h⟩
  · exact absurd h (hbad vals)
  · refine ⟨.ok (some (.wrap e "error makeVals")), by simp, ?_, ?_, ?_⟩
    · intro e' he'
      rw [h] at he'
      have : e = e' := by simpa using he'
      rw [this]
    · intro pn hpn
      rw [h] at hpn; cases hpn
    · intro rest
      exact load_first_bad pf db p i d table header types good bad rest none e hgood h
  · refine ⟨.error pn, by simp, ?_, ?_, ?_⟩
    · intro e he
      rw [h] at he; cases he
    · intro pn' hpn'
      rw [h] at hpn'
      have : pn = pn' := by simpa using hpn'
      rw [this]
    · intro rest
      exact load_first_panic pf db p i d table header types good bad rest pn hgood h

/-- Among data rows of which one does not decode there is a first one. -/
theorem exists_first_undecoded (pf : String → Float64 × Option GoError) (types : List String) :
    ∀ data : List (List String),
    (∃ r, r ∈ data ∧ ∀ vals, makeVals pf types r ≠ .ok (some vals, none)) →
    ∃ (good : List (List String)) (bad : List String) (rest : List (List String)),
      data = good ++ bad :: rest ∧
      (∀ r, r ∈ good → ∃ vals, makeVals pf types r = .ok (some vals, none)) ∧
      ∀ vals, makeVals pf types bad ≠ .ok (some vals, none) := by
  intro data
  induction data with
  | nil => rintro ⟨r, hr, _⟩; simp at hr
  | cons r rs ih =>
    intro hbad
    by_cases hr : ∃ vals, makeVals pf types r = .ok (some vals, none)
    · obtain ⟨r', hr', hn'⟩ := hbad
      have hmem : r' ∈ rs := by
        rcases List.mem_cons.mp hr' with rfl | h
        · obtain ⟨vals, hv⟩ := hr
          exact absurd hv (hn' vals)
        · exact h
      obtain ⟨good, bad, rest, g1, g2, g3⟩ := ih ⟨r', hmem, hn'⟩
      refine ⟨r :: good, bad, rest, by rw [g1]; rfl, ?_, g3⟩
      intro x hx
      rcases List.mem_cons.mp hx with rfl | h
      · exact hr
      · exact g2 x h
    · exact ⟨[], r, rs, rfl, fun x hx => by simp at hx, fun vals hv => hr ⟨vals, hv⟩⟩

/-- The loop of `load` looks at the error of a read only to compare it with
`io.EOF`: a failed read is handled as the row that came with it. -/
theorem loadLoop_asRow (pf : String → Float64 × Option GoError) (table : String) :
    ∀ (reader : List ReadResult) (colNum : Nat) (columns types : List String)
      (m : List Mutation),
    loadLoop pf table (reader.map asRow) colNum columns types m =
      loadLoop pf table reader colNum columns types m := by
  intro reader
  induction reader with
  | nil => intro colNum columns types m; rfl
  | cons r rs ih =>
    intro colNum columns types m
    rw [List.map_cons, loadLoop, loadLoop]
    by_cases he : r.err = some .EOF
    · simp [asRow, he]
    · simp only [asRow, he, if_false, ih]
      simp

/-- The function `load` returns the same, and applies the same, whether the
reads that fail are failures or rows. -/
theorem load_asRow (pf : String → Float64 × Option GoError) (db : Spanner)
    (reader : List ReadResult) (p i d table : String) :
    load pf db (reader.map asRow) p i d table = load pf db reader p i d table := by
  simp only [load, loadLoop_asRow]

/-! ## Claims on `load` -/

/-- C7: when some data row (index 2 or more) fails to decode under the tags of
row 1, `load` makes no `Apply` call and does not return nil; on rows as the csv
reader returns them without error, all of the field count of the first, `load`
returns an error. There is a first row that does not decode: the rows before
it decode, the outcome is the one of that row once the client exists (its
error wrapped, which `load` returns; a panic when the row is longer than the
type row and `makeVals` panics), and the result is the same for every input
that has the same rows up to that one, so the rows after it are not decoded. -/
theorem load_bad_row (pf : String → Float64 × Option GoError) (db : Spanner)
    (p i d table : String) (rows : List (List String))
    (hbad : ∃ (k : Nat) (row : List String) (e : GoError), 2 ≤ k ∧ rows[k]? = some row ∧
      makeVals pf (rows[1]?.getD []) row = .ok (none, some e)) :
    (load pf db (rows.map readOk) p i d table).applied = [] ∧
    (load pf db (rows.map readOk) p i d table).outcome ≠ .ok none ∧
    (SameFieldCount rows →
      ∃ err, (load pf db (rows.map readOk) p i d table).outcome = .ok (some err)) ∧
    ∃ (j : Nat) (row : List String), 2 ≤ j ∧ rows[j]? = some row ∧
      (∀ vals, makeVals pf (rows[1]?.getD []) row ≠ .ok (some vals, none)) ∧
      (∀ (k : Nat) (row' : List String), 2 ≤ k → k < j → rows[k]? = some row' →
        ∃ vals, makeVals pf (rows[1]?.getD []) row' = .ok (some vals, none)) ∧
      (SameFieldCount rows → ∃ e, makeVals pf (rows[1]?.getD []) row = .ok (none, some e)) ∧
      (∀ e, makeVals pf (rows[1]?.getD []) row = .ok (none, some e) →
        (∃ err, (load pf db (rows.map readOk) p i d table).outcome = .ok (some err)) ∧
        (db.NewClient (databaseName p i d) = none →
          (load pf db (rows.map readOk) p i d table).outcome =
            .ok (some (.wrap e "error makeVals")))) ∧
      (∀ pn, makeVals pf (rows[1]?.getD []) row = .error pn →
        db.NewClient (databaseName p i d) = none →
        (load pf db (rows.map readOk) p i d table).outcome = .error pn) ∧
      ∀ rows' : List (List String), rows'.take (j + 1) = rows.take (j + 1) →
        load pf db (rows'.map readOk) p i d table = load pf db (rows.map readOk) p i d table := by
  obtain ⟨k, row, e, hk2, hrow, herr⟩ := hbad
  obtain ⟨k', rfl⟩ : ∃ k', k = k' + 2 := ⟨k - 2, by omega⟩
  match rows, hrow, herr with
  | [], hrow, _ => simp at hrow
  | [_], hrow, _ => simp at hrow
  | header :: types :: data, hrow, herr =>
    simp only [List.getElem?_cons_succ, List.getElem?_cons_zero, Option.getD_some] at herr hrow ⊢
    have hrow_bad : ∀ vals, makeVals pf types row ≠ .ok (some vals, none) := by
      intro vals hv; rw [herr] at hv; simp at hv
    obtain ⟨good, bad, rest, hsplit, hgood, hnot⟩ :=
      exists_first_undecoded pf types data ⟨row, List.getElem?_mem hrow, hrow_bad⟩
    subst hsplit
    obtain ⟨X, hX, hXe, hXp, hload⟩ :=
      load_first_undecoded pf db p i d table header types good bad hgood hnot
    have hj : (header :: types :: (good ++ bad :: rest))[good.length + 2]? = some bad := by
      simp only [List.getElem?_cons_succ]
      rw [List.getElem?_append_right (Nat.le_refl _)]
      simp
    have hsame : SameFieldCount (header :: types :: (good ++ bad :: rest)) →
        ∃ e, makeVals pf types bad = .ok (none, some e) := by
      intro hs
      have h1 : types.length = header.length := by
        simpa using hs types (by simp)
      have h2 : bad.length = header.length := by
        simpa using hs bad (by simp)
      rcases makeVals_cases_of_le pf types bad (by omega) with ⟨out, h, _, _⟩ |
        ⟨_, _, _, e', _, _, _, _, h5⟩
      · exact absurd h (hnot out)
      · exact ⟨e', h5⟩
    have herrret : ∀ e, makeVals pf types bad = .ok (none, some e) →
        ∃ err, (load pf db ((header :: types :: (good ++ bad :: rest)).map readOk)
          p i d table).outcome = .ok (some err) := by
      intro e' he'
      rw [hload rest, hXe e' he']
      cases db.NewClient (databaseName p i d) <;> exact ⟨_, rfl⟩
    refine ⟨?_, ?_, ?_, good.length + 2, bad, by omega, hj, hnot, ?_, hsame, ?_, ?_, ?_⟩
    · rw [hload rest]; cases db.NewClient (databaseName p i d) <;> rfl
    · rw [hload rest]
      cases db.NewClient (databaseName p i d) with
      | none => exact hX
      | some err => simp
    · intro hs
      obtain ⟨e', he'⟩ := hsame hs
      exact herrret e' he'
    · intro n row' hn2 hnj hrow'
      obtain ⟨n', rfl⟩ : ∃ n', n = n' + 2 := ⟨n - 2, by omega⟩
      have hn' : n' < good.length := by omega
      have : good[n']? = some row' := by
        have h := hrow'
        simp only [List.getElem?_cons_succ] at h
        rwa [List.getElem?_append_left hn'] at h
      exact hgood row' (List.getElem?_mem this)
    · intro e' he'
      refine ⟨herrret e' he', ?_⟩
      intro hc
      rw [hload rest, hc, hXe e' he']
    · intro pn hpn hc
      rw [hload rest, hc, hXp pn hpn]
    · intro rows' htake
      have hrows' : rows' = header :: types :: (good ++ bad :: rows'.drop (good.length + 2 + 1)) := by
        conv_lhs => rw [← List.take_append_drop (good.length + 2 + 1) rows', htake]
        simp [List.take_append_eq_append_take]
      rw [hrows', hload rest, hload]

/-- C8: once the client exists, when the rows are read without error and
every row of index 2 or more decodes under the tags of row 1, `load` calls
`Apply` exactly once, with a batch of `n - 2` operations (none when `n < 2`)
whose `k`-th operation is the upsert of the values of row `k + 2` into the
columns of row 0; `load` returns what `Apply` returns, wrapped. -/
theorem load_success (pf : String → Float64 × Option GoError) (db : Spanner)
    (p i d table : String) (rows : List (List String))
    (hclient : db.NewClient (databaseName p i d) = none)
    (hdec : ∀ (k : Nat) (row : List String), 2 ≤ k → rows[k]? = some row →
      ∃ vals, makeVals pf (rows[1]?.getD []) row = .ok (some vals, none)) :
    ∃ batch : List Mutation,
      (load pf db (rows.map readOk) p i d table).applied = [batch] ∧
      (load pf db (rows.map readOk) p i d table).outcome =
        .ok ((db.Apply batch).map (fun err => GoError.wrap err "error Apply")) ∧
      batch.length = rows.length - 2 ∧
      ∀ (k : Nat) (row : List String), rows[k + 2]? = some row →
        ∃ vals, makeVals pf (rows[1]?.getD []) row = .ok (some vals, none) ∧
          batch[k]? = some (.InsertOrUpdate table (rows[0]?.getD []) (some vals)) := by
  match rows, hdec with
  | [], _ =>
    have hl : loadLoop pf table (([] : List (List String)).map readOk) 0 [] [] [] =
        .ok (.brk []) := by simp [loadLoop]
    rw [load_of_brk hclient hl]
    exact ⟨[], rfl, rfl, rfl, fun k row h => by simp at h⟩
  | [header], _ =>
    have hl : loadLoop pf table ([header].map readOk) 0 [] [] [] = .ok (.brk []) := by
      simp [loadLoop, readOk]
    rw [load_of_brk hclient hl]
    exact ⟨[], rfl, rfl, rfl, fun k row h => by simp at h⟩
  | header :: types :: data, hdec =>
    simp only [List.getElem?_cons_succ, List.getElem?_cons_zero, Option.getD_some] at hdec ⊢
    have hall : ∀ r, r ∈ data → ∃ vals, makeVals pf types r = .ok (some vals, none) := by
      intro r hr
      obtain ⟨n, hn⟩ := List.getElem?_of_mem hr
      exact hdec (n + 2) r (by omega) (by simpa using hn)
    obtain ⟨batch, g1, g2, g3⟩ := loadLoop_rows_ok pf table header types data 2 [] (by omega) hall
    have hl : loadLoop pf table ((header :: types :: data).map readOk) 0 [] [] [] =
        .ok (.brk batch) := by
      rw [loadLoop_header, g1]; rfl
    rw [load_of_brk hclient hl]
    exact ⟨batch, rfl, rfl, by simp [g2], g3⟩

/-! ## Claim on `run` -/

theorem runLoad_trace_ne_nil (w : World) (reader : Stream) (opened : Event)
    (p i d table : String) (opt : loadOptions) :
    (runLoad w reader opened p i d table opt).trace ≠ [] := by
  simp only [runLoad]
  split <;> simp

/-- C6: when one of the validations fails, `run` returns the error of the first
one that fails in the order source, project, instance, database, table,
delimiter, bucket, path (the last two for the source `gcs` only), with the
message of that validation, and it has opened no file and no GCS reader and has
not called `load`; when none fails it goes on to open the source; the eight
messages are pairwise distinct. -/
theorem run_validation (w : World) (source bucket path spannerProject spannerInstance
    spannerDatabase spannerTable delimiter : String) (lazyQuotes trimLeadingSpace : Bool) :
    (∀ msg : String,
      firstFailure source bucket path spannerProject spannerInstance spannerDatabase
        spannerTable delimiter = some msg →
      run w source bucket path spannerProject spannerInstance spannerDatabase spannerTable
        delimiter lazyQuotes trimLeadingSpace = ⟨.ok (some (.new msg)), []⟩ ∧
      ∀ quote : String → String, (GoError.new msg).Error quote = msg) ∧
    (firstFailure source bucket path spannerProject spannerInstance spannerDatabase
        spannerTable delimiter = none →
      (run w source bucket path spannerProject spannerInstance spannerDatabase spannerTable
        delimiter lazyQuotes trimLeadingSpace).trace ≠ []) ∧
    (validationChecks source bucket path spannerProject spannerInstance spannerDatabase
        spannerTable delimiter).map (fun c => c.2) =
      ["source is not set", "spanner-project-id is not set", "spanner-instance-id is not set",
        "spanner-database-id is not set", "spanner-table is not set",
        "invalid delimiter type. You can only use: comma or tab", "bucket is not set",
        "path is not set"] ∧
    ((validationChecks source bucket path spannerProject spannerInstance spannerDatabase
        spannerTable delimiter).map (fun c => c.2)).Nodup := by
  refine ⟨?_, ?_, rfl, by simp [validationChecks]⟩
  · intro msg h
    refine ⟨?_, fun _ => rfl⟩
    simp only [firstFailure, validationChecks, List.find?] at h
    unfold run
    by_cases h1 : source = ""
    · simp [h1] at h ⊢; exact h
    by_cases h2 : spannerProject = ""
    · simp [h1, h2] at h ⊢; exact h
    by_cases h3 : spannerInstance = ""
    · simp [h1, h2, h3] at h ⊢; exact h
    by_cases h4 : spannerDatabase = ""
    · simp [h1, h2, h3, h4] at h ⊢; exact h
    by_cases h5 : spannerTable = ""
    · simp [h1, h2, h3, h4, h5] at h ⊢; exact h
    by_cases h6 : delimiter = "comma"
    · by_cases h7 : source = "gcs"
      · by_cases h8 : bucket = ""
        · simp [h1, h2, h3, h4, h5, h6, h7, h8] at h ⊢; exact h
        · by_cases h9 : path = ""
          · simp [h1, h2, h3, h4, h5, h6, h7, h8, h9] at h ⊢; exact h
          · simp [h1, h2, h3, h4, h5, h6, h7, h8, h9] at h
      · simp [h1, h2, h3, h4, h5, h6, h7] at h
    by_cases h6' : delimiter = "tab"
    · by_cases h7 : source = "gcs"
      · by_cases h8 : bucket = ""
        · simp [h1, h2, h3, h4, h5, h6, h6', h7, h8] at h ⊢; exact h
        · by_cases h9 : path = ""
          · simp [h1, h2, h3, h4, h5, h6, h6', h7, h8, h9] at h ⊢; exact h
          · simp [h1, h2, h3, h4, h5, h6, h6', h7, h8, h9] at h
      · simp [h1, h2, h3, h4, h5, h6, h6', h7] at h
    · simp [h1, h2, h3, h4, h5, h6, h6'] at h ⊢; exact h
  · intro h
    rw [firstFailure, Option.map_eq_none', List.find?_eq_none] at h
    simp [validationChecks] at h
    obtain ⟨h1, h2, h3, h4, h5, h6, h7, h8⟩ := h
    have hdelim : ∃ c, (if delimiter = "comma" then some ','
        else if delimiter = "tab" then some '\t' else none) = some c := by
      by_cases hd : delimiter = "comma"
      · exact ⟨',', by simp [hd]⟩
      · exact ⟨'\t', by simp [hd, h6 hd]⟩
    obtain ⟨c, hc⟩ := hdelim
    unfold run
    simp only [h1, h2, h3, h4, h5, if_false, hc]
    by_cases hs : source = "gcs"
    · simp only [hs, h7 hs, h8 hs, if_true, if_false]
      rcases createGCSReader w.storage bucket path with a | err | r
      · simp
      · simp
      · exact runLoad_trace_ne_nil _ _ _ _ _ _ _ _
    · simp only [hs, if_false]
      cases w.osOpen source with
      | error err => simp
      | ok r => exact runLoad_trace_ne_nil _ _ _ _ _ _ _ _

/-- The case `gcs not found` of `Test_run` when `storage.NewClient` fails: the
deferred `client.Close()` of `createGCSReader` runs on the nil client, and `run`
panics instead of returning an error that starts with `error: createGCSReader`. -/
theorem run_gcs_without_client (w : World) (err : GoError)
    (h : w.storage.NewClient = some err) :
    run w "gcs" "test" "path" "project" "instance" "database" "table" "comma" false false =
      ⟨.error (.panic .nilDereference), [.createGCSReader "test" "path"]⟩ := by
  simp [run, createGCSReader, h]

/-! ## The claims at concrete inputs -/

/-- C1 at the tag `int32` and the text `1` (the input of `Test_makeVals`). -/
theorem makeVals_unrecognised_tag_witness :
    ("int32" ≠ "int64" ∧ "int32" ≠ "float64" ∧ "int32" ≠ "bool" ∧ "int32" ≠ "string" ∧
      "int32" ≠ "date" ∧ "int32" ≠ "timestamp") ∧
    makeVals rejectFloat ["int32"] ["1"] =
      .ok (none, some (.new ("invalid spanner data type " ++ "int32"))) :=
  ⟨by decide, (makeVals_unrecognised_tag rejectFloat "int32" "1" (by decide)).1⟩

/-- C2 at three text columns, with an empty text and a text that is no date. -/
theorem makeVals_text_passthrough_witness :
    (∀ t, t ∈ ["string", "date", "timestamp"] → t = "string" ∨ t = "date" ∨ t = "timestamp") ∧
    ["foo", "", "31st of June"].length ≤ ["string", "date", "timestamp"].length ∧
    makeVals rejectFloat ["string", "date", "timestamp"] ["foo", "", "31st of June"] =
      .ok (some (["foo", "", "31st of June"].map Val.string), none) :=
  ⟨by decide, by decide,
    (makeVals_text_passthrough rejectFloat ["string", "date", "timestamp"]
      ["foo", "", "31st of June"] (by decide) (by decide)).1⟩

/-- C3 at the smallest 64-bit integer. -/
theorem makeVals_roundtrip_witness :
    formatInt (-9223372036854775808) = "-9223372036854775808" ∧
    makeVals rejectFloat ["int64"] [formatInt (-9223372036854775808)] =
      .ok (some [Val.int64 (-9223372036854775808)], none) :=
  ⟨by decide,
    (makeVals_roundtrip rejectFloat).1 (-9223372036854775808) (by norm_num) (by norm_num)⟩

/-- C4 at a record whose second field is the text `foo` under the tag `int64`. -/
theorem makeVals_bad_field_witness :
    ["1", "foo"].length ≤ ["int64", "int64"].length ∧
    ParseFails rejectFloat "int64" "foo" ∧
    ∃ (j : Nat) (t v : String) (e : GoError),
      ["int64", "int64"][j]? = some t ∧ ["1", "foo"][j]? = some v ∧
      coerce rejectFloat t v = .error e ∧
      (∀ k : Nat, k < j → ∃ t' v' x, ["int64", "int64"][k]? = some t' ∧
        ["1", "foo"][k]? = some v' ∧ coerce rejectFloat t' v' = .ok x) ∧
      makeVals rejectFloat ["int64", "int64"] ["1", "foo"] = .ok (none, some e) :=
  ⟨by decide, Or.inl ⟨rfl, by decide⟩,
    (makeVals_bad_field rejectFloat ["int64", "int64"] ["1", "foo"] (by decide)
      ⟨1, "int64", "foo", rfl, rfl, Or.inl ⟨rfl, by decide⟩⟩).1⟩

/-- C5 as the claim states it fails: a data row of one field under a schema of
two columns decodes, and the record has one value. -/
theorem makeVals_short_row :
    makeVals rejectFloat ["string", "string"] ["x"] = .ok (some [Val.string "x"], none) ∧
    [Val.string "x"].length ≠ ["string", "string"].length := by
  decide

/-- C5 as the code has it, at the row `1,foo` under the tags `int64,string`. -/
theorem makeVals_length_witness :
    makeVals rejectFloat ["int64", "string"] ["1", "foo"] =
      .ok (some [Val.int64 1, Val.string "foo"], none) ∧
    [Val.int64 1, Val.string "foo"].length = ["1", "foo"].length ∧
    ["1", "foo"].length ≤ ["int64", "string"].length :=
  ⟨by decide,
    (makeVals_length rejectFloat ["int64", "string"] ["1", "foo"]
      [Val.int64 1, Val.string "foo"] (by decide)).1,
    (makeVals_length rejectFloat ["int64", "string"] ["1", "foo"]
      [Val.int64 1, Val.string "foo"] (by decide)).2.1⟩

/-- C6 at the arguments of the second case of `Test_run`. -/
theorem run_validation_witness :
    firstFailure "gcs" "" "" "" "" "" "" "" = some "spanner-project-id is not set" ∧
    run closedWorld "gcs" "" "" "" "" "" "" "" false false =
      ⟨.ok (some (.new "spanner-project-id is not set")), []⟩ :=
  ⟨by decide,
    ((run_validation closedWorld "gcs" "" "" "" "" "" "" "" false false).1
      "spanner-project-id is not set" (by decide)).1⟩

/-- A data row longer than the type row, which the csv reader returns only
together with a read failure: `load` goes on with it and `makeVals` panics. -/
theorem load_long_row_panics :
    load rejectFloat okSpanner
      [readOk ["a"], readOk ["int64"],
        ⟨["1", "2"], some (.lib "record on line 3: wrong number of fields")⟩, readOk ["x"]]
      "p" "i" "d" "t" = ⟨.error (.indexOutOfRange 1 1), []⟩ := by
  decide

/-- C7 at two rows that decode around one that does not. -/
theorem load_bad_row_witness :
    makeVals rejectFloat ["int64"] ["x"] =
      .ok (none, some (.wrap (.numError "ParseInt" "x" .ErrSyntax) "error ParseInt")) ∧
    SameFieldCount [["a"], ["int64"], ["1"], ["x"], ["2"]] ∧
    (load rejectFloat okSpanner ([["a"], ["int64"], ["1"], ["x"], ["2"]].map readOk)
      "p" "i" "d" "t").applied = [] ∧
    ∃ err, (load rejectFloat okSpanner ([["a"], ["int64"], ["1"], ["x"], ["2"]].map readOk)
      "p" "i" "d" "t").outcome = .ok (some err) :=
  have hs : SameFieldCount [["a"], ["int64"], ["1"], ["x"], ["2"]] := by
    unfold SameFieldCount; decide
  have h := load_bad_row rejectFloat okSpanner "p" "i" "d" "t"
    [["a"], ["int64"], ["1"], ["x"], ["2"]]
    ⟨3, ["x"], .wrap (.numError "ParseInt" "x" .ErrSyntax) "error ParseInt", by decide, rfl,
      by decide⟩
  ⟨by decide, hs, h.1, h.2.2.1 hs⟩

/-- C8 at the three rows `ColA,ColB`, `int64,string`, `1,foo`: one `Apply` call
with a batch of one upsert. -/
theorem load_success_witness :
    okSpanner.NewClient (databaseName "p" "i" "d") = none ∧
    ∃ batch : List Mutation,
      (load rejectFloat okSpanner
        ([["ColA", "ColB"], ["int64", "string"], ["1", "foo"]].map readOk)
        "p" "i" "d" "t").applied = [batch] ∧
      batch.length = 1 ∧
      ∃ vals, makeVals rejectFloat ["int64", "string"] ["1", "foo"] = .ok (some vals, none) ∧
        batch[0]? = some (.InsertOrUpdate "t" ["ColA", "ColB"] (some vals)) :=
  have h := load_success rejectFloat okSpanner "p" "i" "d" "t"
    [["ColA", "ColB"], ["int64", "string"], ["1", "foo"]] rfl
    (fun k row hk hrow => by
      match k, hk, hrow with
      | 2, _, hrow =>
        simp at hrow; subst hrow
        exact ⟨[Val.int64 1, Val.string "foo"], by decide⟩
      | k + 3, _, hrow => simp at hrow)
  ⟨rfl, h.choose, h.choose_spec.1, h.choose_spec.2.2.1, h.choose_spec.2.2.2 0 ["1", "foo"] rfl⟩

/-- C9 fails on the code: the third read fails (a record of one field after
records of two), `load` goes on with the record of the failed read, calls
`Apply` and returns nil. -/
theorem load_swallows_read_failure :
    load rejectFloat okSpanner
      [readOk ["a", "b"], readOk ["string", "string"],
        ⟨["x"], some (.lib "record on line 3: wrong number of fields")⟩] "p" "i" "d" "t" =
      ⟨.ok none, [[.InsertOrUpdate "t" ["a", "b"] (some [Val.string "x"])]]⟩ := by
  decide

/-- C10 at a record of two fields under one tag. -/
theorem makeVals_panic_iff_witness :
    ["int64"].length < ["1", "2"].length ∧
    makeVals rejectFloat ["int64"] ["1", "2"] = .error (.indexOutOfRange 1 1) :=
  ⟨by decide,
    (makeVals_panic_iff rejectFloat ["int64"] ["1", "2"]).2.1
      ((makeVals_panic_iff rejectFloat ["int64"] ["1", "2"]).1.mpr
        ⟨by decide, fun k t v ht hv => by
          match k, ht, hv with
          | 0, ht, hv =>
            simp at ht hv
            subst ht; subst hv
            exact ⟨Val.int64 1, by decide⟩
          | k + 1, ht, _ => simp at ht⟩)⟩

end SpannerCsvLoader
